import Mathlib

/-!
Verification of the time-capture full-stack repository.

The front-end HTTP client (`frontend/src/api/client.ts`) is embedded as pure
state-passing functions: browser `localStorage` becomes a `Storage` record,
the axios request/response interceptors become functions over a `Config`
record, and the single-flight token-refresh protocol becomes an explicit
event-step relation on a system state (`Sys`), where each step is one
run-to-completion turn of the JavaScript event loop (a network completion or
a server response arrival followed by a full drain of the microtask queue, in
FIFO order, exactly as the single-threaded runtime executes it).

The server-side block aggregator and label applier are not part of the
repository sources available under src/; where a claim needs them they are
modelled from the specification text and marked as such in their doc comment.
-/

/-! ## Token storage (client.ts: getAccessToken / getRefreshToken / setTokens / clearTokens)

`localStorage` holds at most one string per key; a missing key reads as
`null`, modelled by `Option String`.  JavaScript string truthiness (`if (s)`)
is false exactly on the empty string, modelled by `truthy`. -/

structure Storage where
  access : Option String
  refresh : Option String
deriving DecidableEq

/-- JS truthiness of a possibly-absent string: `null` and `""` are falsy. -/
def truthy : Option String → Bool
  | some s => decide (s ≠ "")
  | none => false

def getAccessToken (s : Storage) : Option String := s.access

def getRefreshToken (s : Storage) : Option String := s.refresh

/-- Argument of `setTokens` (`Partial<JwtPair>`): either field may be absent. -/
structure TokenPatch where
  access : Option String := none
  refresh : Option String := none
deriving DecidableEq

/-- `setTokens`: each field is written only when present and truthy
(`if (tokens.access) localStorage.setItem(...)`). -/
def setTokens (t : TokenPatch) (s : Storage) : Storage :=
  let s1 := if truthy t.access then { s with access := t.access } else s
  if truthy t.refresh then { s1 with refresh := t.refresh } else s1

/-- `clearTokens`: removes both keys. -/
def clearTokens (_ : Storage) : Storage := ⟨none, none⟩

/-! ## Request config and the request interceptor -/

/-- The slice of an axios request config the client manipulates: the
`Authorization` header and the custom `_retry` flag (`retryFlag` here). -/
structure Config where
  auth : Option String
  retryFlag : Bool
deriving DecidableEq

/-- The request interceptor: reads the stored access token and, when truthy,
sets `Authorization: Bearer <token>`; otherwise leaves the config alone. -/
def requestInterceptor (s : Storage) (c : Config) : Config :=
  match getAccessToken s with
  | some t => if t ≠ "" then { c with auth := some ("Bearer " ++ t) } else c
  | none => c

/-! ## The single-flight refresh protocol as an event-step system

A `Caller` is one request whose response error has entered the response
interceptor: its request id, the HTTP status of the error, and the config the
request was sent with.  An `Outcome` records how the interceptor disposed of
a caller: `reject` propagates the original error, `resend` re-issues the
request through `api(original)` with the given config. -/

structure Caller where
  rid : Nat
  status : Nat
  cfg : Config
deriving DecidableEq

inductive Outcome where
  | reject (rid status : Nat)
  | resend (rid : Nat) (cfg : Config)
deriving DecidableEq

/-- Global client state: the token storage, the module-level `isRefreshing`
flag and `pendingRequests` queue, the set of refresh HTTP calls currently in
flight (kept as a list so that the model itself does not presuppose
single-flight — that is proved), `window.location` redirects, and a log of
caller outcomes in the order they were produced. -/
structure Sys where
  storage : Storage
  isRefreshing : Bool
  pending : List Caller
  refreshers : List Caller
  location : Option String
  log : List Outcome
deriving DecidableEq

def initSys (st : Storage) : Sys :=
  ⟨st, false, [], [], none, []⟩

/-- The join point after the 401 branch: `const token = getAccessToken();
if (token) original.headers.Authorization = ...; return api(original)`. -/
def resendWith (st : Storage) (c : Caller) : Outcome :=
  match getAccessToken st with
  | some t =>
    if t ≠ "" then .resend c.rid { c.cfg with auth := some ("Bearer " ++ t) }
    else .resend c.rid c.cfg
  | none => .resend c.rid c.cfg

/-- External events driving the client: a response error arriving at the
interceptor (`arrive`), and the completion of the in-flight refresh HTTP call
(`netOk` with the new access token, or `netErr`). -/
inductive Event where
  | arrive (rid status : Nat) (cfg : Config)
  | netOk (newAccess : String)
  | netErr
deriving DecidableEq

/-- One run-to-completion turn of the event loop.  Each equation follows the
response interceptor and `refreshAccessToken` line by line:

* `arrive`: `if (status === 401 && !original._retry)`; inside, either suspend
  on `pendingRequests` (when `isRefreshing`), or set `_retry`, and start
  `refreshAccessToken` — which throws synchronously when no refresh token is
  stored, in which case the `finally` block releases the waiters (they resume
  and re-send, reading the still-stored tokens) and then the `catch` block
  clears the tokens, redirects to /login and rejects.  A non-401 error, or a
  401 on an already-retried request, is rejected unchanged.
* `netOk`: `setTokens({access})` runs in the `try`, then the `finally`
  releases the waiters and clears the queue; the waiters' continuations were
  queued before the initiator's, so the waiters re-send first (reading the
  new token), then the initiator re-sends.
* `netErr`: the `finally` releases the waiters, whose continuations run
  before the initiator's `catch`; so the waiters re-send reading the OLD
  still-stored tokens, and only then does the initiator clear the tokens,
  redirect to /login and reject its original error. -/
def step : Event → Sys → Option Sys
  | .arrive rid status cfg, s =>
    if status = 401 ∧ cfg.retryFlag = false then
      if s.isRefreshing then
        some { s with pending := s.pending ++ [⟨rid, status, cfg⟩] }
      else
        if truthy (getRefreshToken s.storage) then
          some { s with
            isRefreshing := true
            refreshers := s.refreshers ++ [⟨rid, status, { cfg with retryFlag := true }⟩] }
        else
          some { s with
            storage := clearTokens s.storage
            isRefreshing := false
            pending := []
            location := some "/login"
            log := s.log ++ s.pending.map (resendWith s.storage) ++ [.reject rid status] }
    else
      some { s with log := s.log ++ [.reject rid status] }
  | .netOk tok, s =>
    match s.refreshers with
    | [] => none
    | c :: rest =>
      let st1 := setTokens ⟨some tok, none⟩ s.storage
      some { s with
        storage := st1
        isRefreshing := false
        pending := []
        refreshers := rest
        log := s.log ++ s.pending.map (resendWith st1) ++ [resendWith st1 c] }
  | .netErr, s =>
    match s.refreshers with
    | [] => none
    | c :: rest =>
      some { s with
        storage := clearTokens s.storage
        isRefreshing := false
        pending := []
        refreshers := rest
        location := some "/login"
        log := s.log ++ s.pending.map (resendWith s.storage) ++ [.reject c.rid c.status] }

/-- States reachable from a fresh page load with stored tokens `st0`. -/
inductive Reachable (st0 : Storage) : Sys → Prop where
  | init : Reachable st0 (initSys st0)
  | next {s s' : Sys} (e : Event) : Reachable st0 s → step e s = some s' → Reachable st0 s'

/-- The structural invariant tying the `isRefreshing` flag to the actual
in-flight refresh calls. -/
def SysInv (s : Sys) : Prop :=
  (s.isRefreshing = true ↔ s.refreshers ≠ []) ∧ s.refreshers.length ≤ 1

/-- Run a list of events from a state. -/
def runEvents (evs : List Event) (s : Sys) : Option Sys :=
  evs.foldl (fun acc e => acc.bind (step e)) (some s)

/-! ## Concrete states and traces used as witnesses and counterexamples -/

def st0w : Storage := ⟨some "tokA", some "tokR"⟩

def cfg0 : Config := ⟨none, false⟩

/-- State after one 401 arrival on a fresh load: rid 0 holds the refresh. -/
def sW : Sys := ⟨st0w, true, [], [⟨0, 401, ⟨none, true⟩⟩], none, []⟩

/-- State after the refresh of `sW` completes with a new token "tokB". -/
def sWnext : Sys :=
  ⟨⟨some "tokB", some "tokR"⟩, false, [], [], none, [.resend 0 ⟨some "Bearer tokB", true⟩]⟩

/-- rid 0 starts a refresh, rid 1 queues on it, then the refresh call fails. -/
def traceRefreshFail : List Event :=
  [.arrive 0 401 cfg0, .arrive 1 401 cfg0, .netErr]

/-- rid 1 queues on rid 0's refresh, the refresh succeeds, rid 1's retried
request gets 401 again (carrying the config it was re-sent with, in which
`_retry` was never set), so rid 1 starts a second refresh and is re-sent a
second time after it succeeds. -/
def traceDoubleRetry : List Event :=
  [.arrive 0 401 cfg0, .arrive 1 401 cfg0, .netOk "tokB",
   .arrive 1 401 ⟨some "Bearer tokB", false⟩, .netOk "tokC"]

/-- Number of times the request `rid` is re-sent in a log. -/
def resendCount (rid : Nat) (log : List Outcome) : Nat :=
  (log.filter (fun o => match o with | .resend r _ => r == rid | _ => false)).length

/-! ## Daily Review data and the client-side merge (types.ts, DailyReview.tsx)

`BlockDto` mirrors `frontend/src/types` (`part_002`); the TS field `end` is a
Lean keyword and is named `stop` here.  `confidence` is a JS number that this
code only carries around, never computes with; it is modelled as a rational. -/

structure Suggestion where
  label_type : String
  value_text : String
  confidence : Rat
deriving DecidableEq

structure BlockDto where
  id : Nat
  start : String
  stop : String
  minutes : Nat
  title : Option String
  url : Option String
  file_path : Option String
  client : Option String
  project : Option String
  task : Option String
  notes : Option String
  suggestions : Option (List Suggestion)
deriving DecidableEq

/-- The entry list `withSug.map((x) => [x.id, x.suggestions || []])` fed to
`new Map(...)`. -/
def sugMapEntries (withSug : List BlockDto) : List (Nat × List Suggestion) :=
  withSug.map (fun x => (x.id, x.suggestions.getD []))

/-- `Map.get` on a map built from an entry list: a later entry with the same
key overwrites an earlier one, so lookup returns the last binding. -/
def mapGet (entries : List (Nat × List Suggestion)) (k : Nat) : Option (List Suggestion) :=
  (entries.reverse.find? (fun e => e.1 == k)).map (fun e => e.2)

/-- `DailyReview.load`'s merge: `b.map((x) => ({ ...x, suggestions:
sugMap.get(x.id) || [] }))`. -/
def mergeSuggestions (b withSug : List BlockDto) : List BlockDto :=
  b.map (fun x => { x with suggestions := some ((mapGet (sugMapEntries withSug) x.id).getD []) })

/-- The claim's own description of one merged block (spec-side definition,
to be compared with `mergeSuggestions`): the block from blocks-today with its
`suggestions` replaced by the suggestions of the block with the same id in
the suggestions-today response, or the empty list if no block with that id
appears there. -/
def specMergedBlock (ws : List BlockDto) (x : BlockDto) : BlockDto :=
  { x with
    suggestions := some
      (((ws.find? (fun y => y.id == x.id)).map (fun y => y.suggestions.getD [])).getD []) }

/-! ## Label payload (api/blocks.ts LabelPayload, components/BlockCard.tsx apply) -/

structure LabelPayload where
  block_id : Nat
  client : Option String := none
  project : Option String := none
  task : Option String := none
  notes : Option String := none
  create_rule : Option Bool := none
  create_rule_field : Option String := none
  create_rule_value : Option String := none
deriving DecidableEq

/-- `BlockCard.apply`'s payload construction: starts from `{ block_id }` and
adds each of client/project/task/notes only when its input state is truthy
(non-empty), and the rule fields only when the checkbox is set. -/
def buildLabelPayload (blockId : Nat) (client project task notes : String)
    (createRule : Bool) (ruleField ruleValue : String) : LabelPayload :=
  { block_id := blockId
    client := if client = "" then none else some client
    project := if project = "" then none else some project
    task := if task = "" then none else some task
    notes := if notes = "" then none else some notes
    create_rule := if createRule then some true else none
    create_rule_field := if createRule then some ruleField else none
    create_rule_value := if createRule then some ruleValue else none }

/-- Modelled from the spec: the server-side LabelApplier (`apply(block_id,
labels, ...)`) is not among the repository sources under src/; per §4.4 it
"writes only the fields present in `labels`; absent fields are left untouched
(partial update, not replace)". -/
def applyLabels (b : BlockDto) (p : LabelPayload) : BlockDto :=
  { b with
    client := match p.client with | some v => some v | none => b.client
    project := match p.project with | some v => some v | none => b.project
    task := match p.task with | some v => some v | none => b.task
    notes := match p.notes with | some v => some v | none => b.notes }

/-! ## Block aggregation (modelled from the spec)

The server-side BlockAggregator is not among the repository sources under
src/; `aggregate` below is modelled from §4.1 of the specification: a single
scan over timestamp-ordered events, keeping an open block per identity,
splitting when the identity changes or the gap between consecutive event
timestamps exceeds `poll_seconds * 2`, and discarding on close any block
whose duration is below `min_dwell_seconds`.  The TS/spec field `end` is a
Lean keyword and is named `stop` here; timestamps are in seconds. -/

structure Identity where
  app_id : String
  normalized_title : String
  url : Option String
  file_path : Option String
deriving DecidableEq

structure RawEvent where
  ts : Nat
  identity : Identity
deriving DecidableEq

structure AggBlock where
  start : Nat
  stop : Nat
  identity : Identity
deriving DecidableEq

/-- Modelled from the spec: closing an open block — a block whose duration
`(end - start)` is less than `min_dwell_seconds` is discarded, otherwise it
is appended to the emitted list. -/
def closeEmit (minDwell : Nat) (b : AggBlock) (acc : List AggBlock) : List AggBlock :=
  if minDwell ≤ b.stop - b.start then acc ++ [b] else acc

/-- Modelled from the spec: the aggregation scan.  `ob` is the open block
(its `stop` is always the timestamp of the previous event), `acc` the blocks
emitted so far. -/
def aggregateGo (minDwell poll : Nat) :
    List RawEvent → Option AggBlock → List AggBlock → List AggBlock
  | [], none, acc => acc
  | [], some b, acc => closeEmit minDwell b acc
  | e :: rest, none, acc =>
    aggregateGo minDwell poll rest (some ⟨e.ts, e.ts, e.identity⟩) acc
  | e :: rest, some b, acc =>
    if e.identity = b.identity ∧ e.ts - b.stop ≤ poll * 2 then
      aggregateGo minDwell poll rest (some { b with stop := e.ts }) acc
    else
      aggregateGo minDwell poll rest (some ⟨e.ts, e.ts, e.identity⟩) (closeEmit minDwell b acc)

/-- Modelled from the spec: `aggregate(events, min_dwell_seconds,
poll_seconds)`. -/
def aggregate (events : List RawEvent) (minDwell poll : Nat) : List AggBlock :=
  aggregateGo minDwell poll events none []

/-! ## Concrete data for witnesses -/

def idA : Identity := ⟨"app", "title", none, none⟩

def evsW : List RawEvent := [⟨0, idA⟩, ⟨4, idA⟩, ⟨100, idA⟩, ⟨104, idA⟩]

def blkW : BlockDto :=
  ⟨1, "08:00", "08:30", 30, some "t", none, none, none, none, none, none, none⟩

def blkW2 : BlockDto :=
  ⟨2, "09:00", "09:15", 15, none, some "u", none, none, none, none, none, none⟩

def sugW : Suggestion := ⟨"client", "Acme", 1⟩

def payloadW : LabelPayload := buildLabelPayload 1 "Acme" "" "" "" false "client" "v"

theorem sysInv_init (st : Storage) : SysInv (initSys st) := by
  simp [SysInv, initSys]

theorem sysInv_step {e : Event} {s s' : Sys} (hinv : SysInv s)
    (h : step e s = some s') : SysInv s' := by
  obtain ⟨h1, h2⟩ := hinv
  cases e with
  | arrive rid status cfg =>
    by_cases hc : status = 401 ∧ cfg.retryFlag = false
    · by_cases hr : s.isRefreshing = true
      · simp [step, hc, hr] at h
        subst h
        exact ⟨iff_of_true rfl (h1.mp hr), h2⟩
      · have hre : s.refreshers = [] := by
          by_contra hne
          exact hr (h1.mpr hne)
        by_cases ht : truthy (getRefreshToken s.storage) = true
        · simp [step, hc, hr, ht] at h
          subst h
          simp [SysInv, hre]
        · simp [step, hc, hr, ht] at h
          subst h
          simp [SysInv, hre]
    · simp [step, hc] at h
      subst h
      exact ⟨h1, h2⟩
  | netOk tok =>
    cases hre : s.refreshers with
    | nil => simp [step, hre] at h
    | cons c rest =>
      have hrest : rest = [] := by
        have := h2
        rw [hre] at this
        simpa using this
      simp [step, hre] at h
      subst h
      simp [SysInv, hrest]
  | netErr =>
    cases hre : s.refreshers with
    | nil => simp [step, hre] at h
    | cons c rest =>
      have hrest : rest = [] := by
        have := h2
        rw [hre] at this
        simpa using this
      simp [step, hre] at h
      subst h
      simp [SysInv, hrest]

theorem reachable_sysInv {st0 : Storage} {s : Sys} (h : Reachable st0 s) : SysInv s := by
  induction h with
  | init => exact sysInv_init st0
  | next e _ hstep ih => exact sysInv_step ih hstep

theorem reachable_sW : Reachable st0w sW :=
  Reachable.next (Event.arrive 0 401 cfg0) Reachable.init (by decide)

/-- C1: in every reachable client state, at most one token-refresh request is
in flight (`refreshers` has at most one element, and the `isRefreshing` flag
is set exactly when one is in flight); a request that observes a 401 while a
refresh is outstanding is appended to the waiter queue without starting a
second refresh; and waiters stay queued across any step until the in-flight
refresh resolves (the only steps that remove waiters also clear
`isRefreshing`). -/
theorem single_flight_refresh {st0 : Storage} {s : Sys} (h : Reachable st0 s) :
    s.refreshers.length ≤ 1
    ∧ (s.isRefreshing = true ↔ s.refreshers ≠ [])
    ∧ (∀ rid cfg s', s.isRefreshing = true → cfg.retryFlag = false →
        step (.arrive rid 401 cfg) s = some s' →
        s'.refreshers = s.refreshers ∧ s'.isRefreshing = s.isRefreshing
        ∧ s'.pending = s.pending ++ [⟨rid, 401, cfg⟩])
    ∧ (∀ e s', step e s = some s' →
        (∃ t, s'.pending = s.pending ++ t) ∨ (s'.pending = [] ∧ s'.isRefreshing = false)) := by
  obtain ⟨h1, h2⟩ := reachable_sysInv h
  refine ⟨h2, h1, ?_, ?_⟩
  · intro rid cfg s' hr hcf hstep
    simp [step, hcf, hr] at hstep
    subst hstep
    simp [hr]
  · intro e s' hstep
    cases e with
    | arrive rid status cfg =>
      by_cases hc : status = 401 ∧ cfg.retryFlag = false
      · by_cases hr : s.isRefreshing = true
        · simp [step, hc, hr] at hstep
          subst hstep
          exact Or.inl ⟨_, rfl⟩
        · by_cases ht : truthy (getRefreshToken s.storage) = true
          · simp [step, hc, hr, ht] at hstep
            subst hstep
            exact Or.inl ⟨[], by simp⟩
          · simp [step, hc, hr, ht] at hstep
            subst hstep
            exact Or.inr ⟨rfl, rfl⟩
      · simp [step, hc] at hstep
        subst hstep
        exact Or.inl ⟨[], by simp⟩
    | netOk tok =>
      cases hre : s.refreshers with
      | nil => simp [step, hre] at hstep
      | cons c rest =>
        simp [step, hre] at hstep
        subst hstep
        exact Or.inr ⟨rfl, rfl⟩
    | netErr =>
      cases hre : s.refreshers with
      | nil => simp [step, hre] at hstep
      | cons c rest =>
        simp [step, hre] at hstep
        subst hstep
        exact Or.inr ⟨rfl, rfl⟩

theorem single_flight_refresh_witness :
    sW.refreshers.length ≤ 1 ∧ (sW.isRefreshing = true ↔ sW.refreshers ≠ []) :=
  ⟨(single_flight_refresh reachable_sW).1, (single_flight_refresh reachable_sW).2.1⟩

/-- C2 (divergence evidence): when the in-flight refresh fails, the queued
waiter (rid 1) is released and RE-SENT with the stale access token
(`Bearer tokA`) instead of failing with its original error; only the
initiating caller (rid 0) rejects.  Tokens are cleared and the client
redirects to /login (by the initiator, after the waiters have already read
the stale token). -/
theorem refresh_failure_waiters_resent :
    runEvents traceRefreshFail (initSys st0w) = some
      ⟨⟨none, none⟩, false, [], [], some "/login",
       [.resend 1 ⟨some "Bearer tokA", false⟩, .reject 0 401]⟩ := by
  decide

/-- C3 (divergence evidence): a single original request (rid 1) is re-sent
twice.  It observes a 401 while rid 0's refresh is in flight, is queued and
then re-sent without the `_retry` mark; when that retry receives 401 again it
starts its own refresh and is re-sent a second time — so "retried at most
once" fails. -/
theorem waiter_retried_twice :
    (runEvents traceDoubleRetry (initSys st0w)).map (fun s => resendCount 1 s.log)
      = some 2 := by
  decide

/-- C10: a response error that is not a 401, or a 401 on a request already
marked `_retry`, is rejected with the original error unchanged: the step
changes nothing but appending that rejection to the outcome log (no refresh
started, no retry issued, storage untouched). -/
theorem non401_rejected_unchanged (s : Sys) (rid status : Nat) (cfg : Config)
    (h : ¬ (status = 401 ∧ cfg.retryFlag = false)) :
    step (.arrive rid status cfg) s =
      some { s with log := s.log ++ [.reject rid status] } := by
  simp [step, h]

theorem non401_rejected_unchanged_witness :
    step (.arrive 0 500 cfg0) (initSys st0w) =
      some { initSys st0w with log := (initSys st0w).log ++ [.reject 0 500] } :=
  non401_rejected_unchanged (initSys st0w) 0 500 cfg0 (by decide)

/-- C8: a successful refresh (`setTokens({ access: data.access })`) leaves
the stored refresh token unchanged, and overwrites the access token with the
token the refresh endpoint returned (when that token is non-empty). -/
theorem refresh_success_preserves_refresh_token (s s' : Sys) (tok : String)
    (h : step (.netOk tok) s = some s') :
    s'.storage.refresh = s.storage.refresh
    ∧ (tok ≠ "" → s'.storage.access = some tok) := by
  cases hre : s.refreshers with
  | nil => simp [step, hre] at h
  | cons c rest =>
    simp [step, hre] at h
    subst h
    constructor
    · by_cases htok : tok = "" <;> simp [setTokens, truthy, htok]
    · intro htok
      simp [setTokens, truthy, htok]

theorem refresh_success_preserves_refresh_token_witness :
    sWnext.storage.refresh = sW.storage.refresh
    ∧ ("tokB" ≠ "" → sWnext.storage.access = some "tokB") :=
  refresh_success_preserves_refresh_token sW sWnext "tokB" (by decide)

/-- C6 counterexample: with the empty string stored as access token, a token
IS stored (`getAccessToken` returns it) yet the request interceptor adds no
`Authorization` header — JS truthiness treats `""` as absent. -/
theorem bearer_header_empty_token_cex :
    getAccessToken ⟨some "", none⟩ = some ""
    ∧ requestInterceptor ⟨some "", none⟩ cfg0 = cfg0
    ∧ cfg0.auth = none := by
  decide

/-- C6 amended: if a NON-EMPTY access token is stored the outgoing request
carries `Authorization: Bearer <token>` with exactly that token; if no token
or the empty string is stored the config is returned unchanged. -/
theorem bearer_header_amended (st : Storage) (c : Config) :
    (∀ t, getAccessToken st = some t → t ≠ "" →
      requestInterceptor st c = { c with auth := some ("Bearer " ++ t) })
    ∧ (truthy (getAccessToken st) = false → requestInterceptor st c = c) := by
  constructor
  · intro t ht hne
    simp [requestInterceptor, ht, hne]
  · intro hfalse
    cases hacc : getAccessToken st with
    | none => simp [requestInterceptor, hacc]
    | some t =>
      have hte : t = "" := by
        rw [hacc] at hfalse
        simpa [truthy] using hfalse
      simp [requestInterceptor, hacc, hte]

theorem bearer_header_amended_witness :
    requestInterceptor ⟨some "tok", none⟩ cfg0 = { cfg0 with auth := some ("Bearer " ++ "tok") } :=
  (bearer_header_amended ⟨some "tok", none⟩ cfg0).1 "tok" rfl (by decide)

/-- C9 counterexample: `setTokens` with a pair of empty strings stores
nothing (JS truthiness guards each `setItem`), so the getters do not return
the strings that were set. -/
theorem token_roundtrip_cex :
    ¬ (getAccessToken (setTokens ⟨some "", some ""⟩ ⟨none, none⟩) = some ""
       ∧ getRefreshToken (setTokens ⟨some "", some ""⟩ ⟨none, none⟩) = some "") := by
  decide

/-- C9 amended: for every pair of NON-EMPTY token strings, `setTokens`
followed by the getters returns exactly those strings; after `clearTokens`
both getters return `null`; and `setTokens` with a missing field leaves the
corresponding stored token unchanged. -/
theorem token_roundtrip_amended (a r : String) (st : Storage)
    (ha : a ≠ "") (hr : r ≠ "") :
    getAccessToken (setTokens ⟨some a, some r⟩ st) = some a
    ∧ getRefreshToken (setTokens ⟨some a, some r⟩ st) = some r
    ∧ getAccessToken (clearTokens st) = none
    ∧ getRefreshToken (clearTokens st) = none
    ∧ getAccessToken (setTokens ⟨none, some r⟩ st) = getAccessToken st
    ∧ getRefreshToken (setTokens ⟨some a, none⟩ st) = getRefreshToken st := by
  refine ⟨?_, ?_, rfl, rfl, ?_, ?_⟩
  all_goals
    simp [setTokens, truthy, getAccessToken, getRefreshToken, ha, hr]

theorem token_roundtrip_amended_witness :
    getAccessToken (setTokens ⟨some "a", some "r"⟩ ⟨none, none⟩) = some "a"
    ∧ getRefreshToken (setTokens ⟨some "a", some "r"⟩ ⟨none, none⟩) = some "r"
    ∧ getAccessToken (clearTokens ⟨none, none⟩) = none
    ∧ getRefreshToken (clearTokens ⟨none, none⟩) = none
    ∧ getAccessToken (setTokens ⟨none, some "r"⟩ ⟨none, none⟩) = getAccessToken ⟨none, none⟩
    ∧ getRefreshToken (setTokens ⟨some "a", none⟩ ⟨none, none⟩) = getRefreshToken ⟨none, none⟩ :=
  token_roundtrip_amended "a" "r" ⟨none, none⟩ (by decide) (by decide)

theorem mem_closeEmit {m : Nat} {b x : AggBlock} {acc : List AggBlock}
    (h : x ∈ closeEmit m b acc) : x ∈ acc ∨ x = b := by
  unfold closeEmit at h
  split at h
  · rcases List.mem_append.mp h with h' | h'
    · exact Or.inl h'
    · exact Or.inr (by simpa using h')
  · exact Or.inl h

theorem closeEmit_pairwise {m : Nat} {b : AggBlock} {acc : List AggBlock}
    (hacc : List.Pairwise (fun x y => x.stop ≤ y.start) acc)
    (hlink : ∀ a ∈ acc, a.stop ≤ b.start) :
    List.Pairwise (fun x y => x.stop ≤ y.start) (closeEmit m b acc) := by
  unfold closeEmit
  split
  · refine List.pairwise_append.mpr ⟨hacc, List.pairwise_singleton _ _, ?_⟩
    intro a ha b' hb'
    have hbb : b' = b := by simpa using hb'
    subst hbb
    exact hlink a ha
  · exact hacc

theorem aggregateGo_pairwise (m p : Nat) (events : List RawEvent) :
    ∀ (ob : Option AggBlock) (acc : List AggBlock),
    List.Pairwise (fun a b => a.ts ≤ b.ts) events →
    List.Pairwise (fun x y => x.stop ≤ y.start) acc →
    (∀ x ∈ acc, x.start ≤ x.stop) →
    (∀ b, ob = some b →
      b.start ≤ b.stop ∧ (∀ a ∈ acc, a.stop ≤ b.start) ∧ (∀ e ∈ events, b.stop ≤ e.ts)) →
    (ob = none → ∀ a ∈ acc, ∀ e ∈ events, a.stop ≤ e.ts) →
    List.Pairwise (fun x y => x.stop ≤ y.start) (aggregateGo m p events ob acc)
    ∧ (∀ x ∈ aggregateGo m p events ob acc, x.start ≤ x.stop) := by
  induction events with
  | nil =>
    intro ob acc _ hacc hse hob _
    cases ob with
    | none => exact ⟨hacc, hse⟩
    | some b =>
      obtain ⟨hb1, hb2, _⟩ := hob b rfl
      refine ⟨closeEmit_pairwise hacc hb2, ?_⟩
      intro x hx
      rcases mem_closeEmit hx with h' | h'
      · exact hse x h'
      · subst h'
        exact hb1
  | cons e rest ih =>
    intro ob acc hsort hacc hse hob hobn
    obtain ⟨hhead, hsort'⟩ := List.pairwise_cons.mp hsort
    cases ob with
    | none =>
      show (List.Pairwise _ (aggregateGo m p rest (some ⟨e.ts, e.ts, e.identity⟩) acc)) ∧ _
      apply ih _ _ hsort' hacc hse
      · intro b' hb'
        injection hb' with hb'
        subst hb'
        refine ⟨le_refl _, ?_, ?_⟩
        · intro a ha
          exact hobn rfl a ha e (List.mem_cons_self e rest)
        · intro x hx
          exact hhead x hx
      · intro hcontra
        exact nomatch hcontra
    | some b =>
      obtain ⟨hb1, hb2, hb3⟩ := hob b rfl
      have hbe : b.stop ≤ e.ts := hb3 e (List.mem_cons_self e rest)
      by_cases hcond : e.identity = b.identity ∧ e.ts - b.stop ≤ p * 2
      · have hunf : aggregateGo m p (e :: rest) (some b) acc
            = aggregateGo m p rest (some { b with stop := e.ts }) acc := by
          show (if e.identity = b.identity ∧ e.ts - b.stop ≤ p * 2 then _ else _) = _
          rw [if_pos hcond]
        rw [hunf]
        apply ih _ _ hsort' hacc hse
        · intro b' hb'
          injection hb' with hb'
          subst hb'
          refine ⟨le_trans hb1 hbe, hb2, ?_⟩
          intro x hx
          exact hhead x hx
        · intro hcontra
          exact nomatch hcontra
      · have hunf : aggregateGo m p (e :: rest) (some b) acc
            = aggregateGo m p rest (some ⟨e.ts, e.ts, e.identity⟩) (closeEmit m b acc) := by
          show (if e.identity = b.identity ∧ e.ts - b.stop ≤ p * 2 then _ else _) = _
          rw [if_neg hcond]
        rw [hunf]
        apply ih _ _ hsort' (closeEmit_pairwise hacc hb2)
        · intro x hx
          rcases mem_closeEmit hx with h' | h'
          · exact hse x h'
          · subst h'
            exact hb1
        · intro b' hb'
          injection hb' with hb'
          subst hb'
          refine ⟨le_refl _, ?_, ?_⟩
          · intro a ha
            rcases mem_closeEmit ha with h' | h'
            · exact le_trans (hb2 a h') (le_trans hb1 hbe)
            · subst h'
              exact hbe
          · intro x hx
            exact hhead x hx
        · intro hcontra
          exact nomatch hcontra

/-- C4 (modelled from the spec, the server aggregator being outside src/):
for every timestamp-ordered event sequence, the blocks `aggregate` produces
are pairwise non-overlapping in order — every (in particular adjacent) pair
satisfies `block[i].end ≤ block[j].start` for i < j — and each block has
`start ≤ end`, so the sequence is also ordered by `start`. -/
theorem aggregate_blocks_ordered (events : List RawEvent) (minDwell poll : Nat)
    (h : List.Pairwise (fun a b => a.ts ≤ b.ts) events) :
    List.Pairwise (fun x y => x.stop ≤ y.start) (aggregate events minDwell poll)
    ∧ (∀ x ∈ aggregate events minDwell poll, x.start ≤ x.stop) := by
  apply aggregateGo_pairwise minDwell poll events none [] h List.Pairwise.nil
  · intro x hx
    exact absurd hx (List.not_mem_nil x)
  · intro b hb
    exact nomatch hb
  · intro _ a ha
    exact absurd ha (List.not_mem_nil a)

theorem aggregate_blocks_ordered_witness :
    List.Pairwise (fun x y => x.stop ≤ y.start) (aggregate evsW 4 5)
    ∧ (∀ x ∈ aggregate evsW 4 5, x.start ≤ x.stop) :=
  aggregate_blocks_ordered evsW 4 5 (by decide)

theorem find?_key_eq_none {β : Type} (l : List (Nat × β)) (k : Nat)
    (h : k ∉ l.map Prod.fst) : l.find? (fun e => e.1 == k) = none := by
  rw [List.find?_eq_none]
  intro x hx hbeq
  apply h
  apply List.mem_map.mpr
  exact ⟨x, hx, by simpa using hbeq⟩

theorem find?_reverse_of_nodup_keys {β : Type} :
    ∀ (l : List (Nat × β)) (k : Nat), (l.map Prod.fst).Nodup →
    l.reverse.find? (fun e => e.1 == k) = l.find? (fun e => e.1 == k) := by
  intro l k
  induction l with
  | nil => intro _; rfl
  | cons a t ih =>
    intro h
    simp only [List.map_cons] at h
    obtain ⟨hna, hnt⟩ := List.nodup_cons.mp h
    by_cases hk : a.1 = k
    · have htnone : t.find? (fun e => e.1 == k) = none :=
        find?_key_eq_none t k (hk ▸ hna)
      have htrev : t.reverse.find? (fun e => e.1 == k) = none := by
        apply find?_key_eq_none
        rw [List.map_reverse, List.mem_reverse]
        exact hk ▸ hna
      rw [List.reverse_cons, List.find?_append, htrev,
        List.find?_cons_of_pos _ (by simpa using hk),
        List.find?_cons_of_pos _ (by simpa using hk)]
      rfl
    · rw [List.reverse_cons, List.find?_append,
        List.find?_singleton, if_neg (by simpa using hk),
        List.find?_cons_of_neg _ (by simpa using hk), Option.or_none]
      exact ih hnt

theorem mapGet_eq_find? (ws : List BlockDto) (k : Nat)
    (h : (ws.map (fun x => x.id)).Nodup) :
    mapGet (sugMapEntries ws) k =
      (ws.find? (fun y => y.id == k)).map (fun y => y.suggestions.getD []) := by
  have hnd : ((sugMapEntries ws).map Prod.fst).Nodup := by
    simpa [sugMapEntries, List.map_map, Function.comp] using h
  unfold mapGet
  rw [find?_reverse_of_nodup_keys _ k hnd]
  unfold sugMapEntries
  rw [List.find?_map, Option.map_map]
  rfl

/-- C5: the block list the Daily Review renders is the blocks-today list,
in the same order, with each block's `suggestions` replaced by the
suggestions of the block with the same id in the suggestions-today response
(or the empty list when no such block, or when its suggestions are absent).
The hypothesis says suggestions-today carries distinct block ids, which makes
"the block with the same id" well defined. -/
theorem daily_review_merge (b ws : List BlockDto)
    (h : (ws.map (fun x => x.id)).Nodup) :
    mergeSuggestions b ws = b.map (specMergedBlock ws) := by
  unfold mergeSuggestions
  apply List.map_congr_left
  intro x _
  unfold specMergedBlock
  rw [mapGet_eq_find? ws x.id h]

theorem daily_review_merge_witness :
    mergeSuggestions [blkW, blkW2] [{ blkW with suggestions := some [sugW] }] =
      [blkW, blkW2].map (specMergedBlock [{ blkW with suggestions := some [sugW] }]) :=
  daily_review_merge [blkW, blkW2] [{ blkW with suggestions := some [sugW] }] (by decide)

/-- C7: applying a labels payload writes only the fields present in it —
every absent field (and every non-label field of the block) is left
untouched, every present field is overwritten with the payload value — and
the payload `BlockCard.apply` submits contains, of the labeling fields,
exactly `block_id` plus those of client/project/task/notes whose input value
is non-empty, each carrying exactly that input value. -/
theorem label_update_writes_only_present (b : BlockDto) (p : LabelPayload)
    (bid : Nat) (c pj tk n : String) (cr : Bool) (rf rv : String) :
    ((applyLabels b p).id = b.id
      ∧ (applyLabels b p).start = b.start
      ∧ (applyLabels b p).stop = b.stop
      ∧ (applyLabels b p).minutes = b.minutes
      ∧ (applyLabels b p).title = b.title
      ∧ (applyLabels b p).url = b.url
      ∧ (applyLabels b p).file_path = b.file_path
      ∧ (applyLabels b p).suggestions = b.suggestions)
    ∧ (p.client = none → (applyLabels b p).client = b.client)
    ∧ (∀ v, p.client = some v → (applyLabels b p).client = some v)
    ∧ (p.project = none → (applyLabels b p).project = b.project)
    ∧ (∀ v, p.project = some v → (applyLabels b p).project = some v)
    ∧ (p.task = none → (applyLabels b p).task = b.task)
    ∧ (∀ v, p.task = some v → (applyLabels b p).task = some v)
    ∧ (p.notes = none → (applyLabels b p).notes = b.notes)
    ∧ (∀ v, p.notes = some v → (applyLabels b p).notes = some v)
    ∧ (buildLabelPayload bid c pj tk n cr rf rv).block_id = bid
    ∧ ((buildLabelPayload bid c pj tk n cr rf rv).client
        = if c = "" then none else some c)
    ∧ ((buildLabelPayload bid c pj tk n cr rf rv).project
        = if pj = "" then none else some pj)
    ∧ ((buildLabelPayload bid c pj tk n cr rf rv).task
        = if tk = "" then none else some tk)
    ∧ ((buildLabelPayload bid c pj tk n cr rf rv).notes
        = if n = "" then none else some n) := by
  refine ⟨⟨rfl, rfl, rfl, rfl, rfl, rfl, rfl, rfl⟩,
    ?_, ?_, ?_, ?_, ?_, ?_, ?_, ?_, rfl, rfl, rfl, rfl, rfl⟩
  · intro h
    simp [applyLabels, h]
  · intro v h
    simp [applyLabels, h]
  · intro h
    simp [applyLabels, h]
  · intro v h
    simp [applyLabels, h]
  · intro h
    simp [applyLabels, h]
  · intro v h
    simp [applyLabels, h]
  · intro h
    simp [applyLabels, h]
  · intro v h
    simp [applyLabels, h]

theorem label_update_writes_only_present_witness :
    (applyLabels blkW payloadW).client = some "Acme"
    ∧ (applyLabels blkW payloadW).notes = blkW.notes := by
  have h := label_update_writes_only_present blkW payloadW 1 "Acme" "" "" "" false "client" "v"
  exact ⟨h.2.2.1 "Acme" (by decide), h.2.2.2.2.2.2.2.1 (by decide)⟩
